import Mathlib

/-
  Verification of the register-oriented read engine of the python-energymeter
  library (energymeter.py): batching policies, the TCP receive loop, the
  value codecs, and the read() dispatch of the meter clients.

  Modelling conventions:
  - Python integers are modelled as Int (addresses, decimals) or Nat (raw
    words and bytes, which are always non-negative).
  - Python float arithmetic (division by powers of ten, the exact value of a
    finite IEEE-754 single) is modelled as exact rational arithmetic.
  - A Python function that can raise (struct.error, IndexError, ...) is
    modelled with Option, none standing for the raised exception, or with an
    explicit error constructor in the outcome type of read().
  - In-place mutation of self.REGS by list.sort is modelled by state passing:
    read returns the pair (outcome, REGS after the call).  Python list.sort
    is a stable ascending sort, modelled by List.insertionSort on the key,
    which computes the same list as any stable sort by that key.
-/

/-- A register descriptor, one entry of a REGS catalog in energymeter.py:
name, start address, length in 16-bit words, signedness, decimal scale and
the is_float flag (absent in most catalogs, modelled as false). -/
structure Reg where
  name : String
  start : ℤ
  length : ℤ
  signed : Bool
  decimals : ℤ
  isFloat : Bool
deriving DecidableEq, Repr

/-- Result of a _convert_value call.  null is Python None (a null-sentinel
reading); num q is a finite numeric result with exact value q; f32 and f64
are the raw floats returned unscaled by the RTU float branch, recorded by
their big-endian IEEE-754 bit pattern; nonfinite records a non-finite
single-precision pattern flowing through the TCP codec. -/
inductive PyVal where
  | null : PyVal
  | num : ℚ → PyVal
  | f32 : ℕ → PyVal
  | f64 : ℕ → PyVal
  | nonfinite : ℕ → PyVal
deriving DecidableEq, Repr

/-- Big-endian packing of 16-bit words, as struct.pack with format H
repeated does: fold from the left multiplying by 65536. -/
def packBE (ws : List ℕ) : ℕ :=
  ws.foldl (fun a w => a * 65536 + w) 0

/-- Big-endian packing of bytes, as the byte strings handed to the TCP
codec are read by struct.unpack. -/
def bytesBE (bs : List ℕ) : ℕ :=
  bs.foldl (fun a b => a * 256 + b) 0

/-- Reading a raw unsigned integer of nbits bits as a signed (twos
complement) integer, as struct.unpack with a signed format code does. -/
def toSigned (nbits : ℕ) (raw : ℕ) : ℤ :=
  if raw < 2 ^ (nbits - 1) then (raw : ℤ) else (raw : ℤ) - 2 ^ nbits

/-- ABBMeter.NULLS, the serial null sentinels:
pow(2, n) - 1 for n in (64, 63, 32, 31, 16, 15). -/
def ABBMeter.NULLS : List ℤ :=
  ([64, 63, 32, 31, 16, 15] : List ℕ).map (fun n => 2 ^ n - 1)

/-- The NULLS list shared by the concrete TCP meter classes (SMAMeter,
MulticubeMeter): 2 ** 16 - 1, 2 ** 15 - 1, 2 ** 15, -2 ** 15. -/
def tcpNULLS : List ℤ :=
  [2 ^ 16 - 1, 2 ^ 15 - 1, 2 ^ 15, -(2 ^ 15)]

/-- ModbusRTUMeter._convert_value.  Input is the list of 16-bit register
words.  The is_float branch returns the packed IEEE pattern unscaled; the
integer path packs big-endian, reads signed or unsigned, substitutes None
for a value in ABBMeter.NULLS, else scales by 10 ** number_of_decimals.
Lengths other than 1, 2, 4 (or words outside 16 bits) raise struct.error,
modelled as none. -/
def ModbusRTUMeter.convert_value (values : List ℕ) (signed : Bool)
    (number_of_decimals : ℤ) (is_float : Bool) : Option PyVal :=
  if ∃ w ∈ values, 65536 ≤ w then none
  else if is_float ∧ values.length = 2 then some (PyVal.f32 (packBE values))
  else if is_float ∧ values.length = 4 then some (PyVal.f64 (packBE values))
  else if values.length = 1 ∨ values.length = 2 ∨ values.length = 4 then
    let raw := packBE values
    let value : ℤ := if signed then toSigned (16 * values.length) raw else (raw : ℤ)
    if value ∈ ABBMeter.NULLS then some PyVal.null
    else some (PyVal.num ((value : ℚ) / (10 : ℚ) ^ number_of_decimals))
  else none

/-- Exact value of the IEEE-754 single precision float with the given
32-bit pattern, as a rational; none for the non-finite patterns (exponent
field 255, infinities and NaNs). -/
def ieee32Val (bits : ℕ) : Option ℚ :=
  let s : ℕ := bits / 2 ^ 31 % 2
  let e : ℕ := bits / 2 ^ 23 % 2 ^ 8
  let f : ℕ := bits % 2 ^ 23
  if e = 255 then none
  else
    let mag : ℚ :=
      if e = 0 then (f : ℚ) / 2 ^ 149
      else ((2 ^ 23 + f : ℕ) : ℚ) * 2 ^ e / 2 ^ 150
    some (if s = 1 then -mag else mag)

/-- ModbusTCPMeter._convert_value.  Input is the byte string sliced from
the response (2 bytes per register word).  With is_float the format code is
always f, so exactly 4 bytes unpack (as a single precision float) and any
other length raises; the unpacked float then still flows through the NULLS
membership test and the division by 10 ** decimals.  Without is_float, 1,
2 and 4 byte buffers unpack as 8, 16 and 32 bit integers; an 8-byte buffer
(a 4-word register) matches no format branch and raises, modelled as
none.  NULLS is the self.NULLS list of the concrete meter class. -/
def ModbusTCPMeter.convert_value (NULLS : List ℤ) (values : List ℕ)
    (signed : Bool) (decimals : ℤ) (is_float : Bool) : Option PyVal :=
  if ∃ b ∈ values, 256 ≤ b then none
  else if is_float then
    if values.length = 4 then
      match ieee32Val (bytesBE values) with
      | some q =>
          if q ∈ NULLS.map (fun z => (z : ℚ)) then some PyVal.null
          else some (PyVal.num (q / (10 : ℚ) ^ decimals))
      | none => some (PyVal.nonfinite (bytesBE values))
    else none
  else if values.length = 1 ∨ values.length = 2 ∨ values.length = 4 then
    let raw := bytesBE values
    let value : ℤ := if signed then toSigned (8 * values.length) raw else (raw : ℤ)
    if value ∈ NULLS then some PyVal.null
    else some (PyVal.num ((value : ℚ) / (10 : ℚ) ^ decimals))
  else none

/-- The byte string that carries a list of 16-bit words on the TCP wire:
each word contributes its high byte then its low byte. -/
def wordsToBytes (ws : List ℕ) : List ℕ :=
  ws.flatMap (fun w => [w / 256, w % 256])

/-- Modelled from the spec wording of the non-float decode: pack the words
big-endian into an integer of 16 x wordLength bits (positional notation,
most significant word first), interpret it as unsigned, or as signed twos
complement (the balanced residue, Int.bmod); if the integer is one of the
transport sentinels the reading is absent, else it is the integer divided
by 10 ** decimals. -/
def specPackBE : List ℕ → ℕ
  | [] => 0
  | w :: ws => w * 2 ^ (16 * ws.length) + specPackBE ws

/-- Modelled from the spec: the claimed non-float decode, parameterised by
the transport sentinel list. -/
def specNonFloatDecode (sentinels : List ℤ) (ws : List ℕ) (signed : Bool)
    (d : ℤ) : PyVal :=
  let raw := specPackBE ws
  let v : ℤ := if signed then Int.bmod (raw : ℤ) (2 ^ (16 * ws.length)) else (raw : ℤ)
  if v ∈ sentinels then PyVal.null
  else PyVal.num ((v : ℚ) / (10 : ℚ) ^ d)

/-- The loop body of ModbusRTUMeter._batch_read (identical in
SaiaMeter._batch_read up to the cap): start is the start address of the
first register of the current batch, batch the current batch, acc the
batches already flushed. -/
def batchLoop (cap : ℤ) : ℤ → List Reg → List (List Reg) → List Reg → List (List Reg)
  | _, batch, acc, [] => acc ++ [batch]
  | start, batch, acc, r :: rs =>
    if r.start + r.length - start ≤ cap then
      batchLoop cap start (batch ++ [r]) acc rs
    else
      batchLoop cap r.start [r] (acc ++ [batch]) rs

/-- The batch plan computed by _batch_read for a given cap: the list of
batches on which _read_multiple is called, in order.  An empty input
raises IndexError at registers[0], modelled as none. -/
def batchReadCap (cap : ℤ) : List Reg → Option (List (List Reg))
  | [] => none
  | r :: rs => some (batchLoop cap r.start [] [] (r :: rs))

/-- ModbusRTUMeter._batch_read limits each batch span to 125 registers. -/
def ModbusRTUMeter.batch_read : List Reg → Option (List (List Reg)) :=
  batchReadCap 125

/-- SaiaMeter._batch_read limits each batch span to 10 registers. -/
def SaiaMeter.batch_read : List Reg → Option (List (List Reg)) :=
  batchReadCap 10

/-- The loop body of ModbusTCPMeter._split_ranges: pe is prev_end, cur the
current group, acc the groups already yielded. -/
def splitLoop : ℤ → List Reg → List (List Reg) → List Reg → List (List Reg)
  | _, cur, acc, [] => acc ++ [cur]
  | pe, cur, acc, r :: rs =>
    if 1 < r.start - pe then
      splitLoop (r.start + r.length) [r] (acc ++ [cur]) rs
    else
      splitLoop (r.start + r.length) (cur ++ [r]) acc rs

/-- ModbusTCPMeter._split_ranges: the list of contiguous groups yielded by
the generator.  prev_end starts at registers[0].start - 1; an empty input
raises IndexError there, modelled as none. -/
def ModbusTCPMeter.split_ranges : List Reg → Option (List (List Reg))
  | [] => none
  | r :: rs => some (splitLoop (r.start - 1) [] [] (r :: rs))

/-- The address window a batch is read with, as _read_multiple computes
it: firstAddress = min of the starts, registerCount = max of the ends
minus firstAddress.  none on an empty batch (min of an empty list). -/
def windowOf (regs : List Reg) : Option (ℤ × ℤ) :=
  match regs.map (fun r => r.start), regs.map (fun r => r.start + r.length) with
  | s :: ss, e :: es => some (ss.foldl min s, es.foldl max e - ss.foldl min s)
  | _, _ => none

/-- Modelled from the spec wording of gap-tolerant batching: a window
accumulates the next register while register.start + register.wordLength -
windowFirstAddress stays within the cap, else the window closes and a new
one starts at that register. -/
def specGapLoop (cap : ℤ) : ℤ → List Reg → List Reg → List (List Reg)
  | _, cur, [] => [cur]
  | first, cur, r :: rs =>
    if r.start + r.length - first ≤ cap then
      specGapLoop cap first (cur ++ [r]) rs
    else
      cur :: specGapLoop cap r.start [r] rs

/-- Modelled from the spec: the gap-tolerant window list of a non-empty
register sequence, first window starting at the first register. -/
def specGapBatch (cap : ℤ) : List Reg → List (List Reg)
  | [] => []
  | r :: rs => specGapLoop cap r.start [r] rs

/-- Modelled from the spec wording of contiguity-strict splitting: the
next register joins the current window only while register.start -
previousEnd is at most 1, previousEnd being the previous register start
plus its length; a larger gap forces a new window. -/
def specContigLoop : ℤ → List Reg → List Reg → List (List Reg)
  | _, cur, [] => [cur]
  | pe, cur, r :: rs =>
    if r.start - pe ≤ 1 then
      specContigLoop (r.start + r.length) (cur ++ [r]) rs
    else
      cur :: specContigLoop (r.start + r.length) [r] rs

/-- Modelled from the spec: the contiguity-strict window list of a
non-empty register sequence. -/
def specContigSplit : List Reg → List (List Reg)
  | [] => []
  | r :: rs => specContigLoop (r.start + r.length) [r] rs

/-- Concatenation of the windows back into one register list. -/
def concatAll : List (List Reg) → List Reg
  | [] => []
  | w :: ws => w ++ concatAll ws

/-- Two windows carry disjoint register names. -/
def namesDisjoint (a b : List Reg) : Prop :=
  ∀ x ∈ a, ∀ y ∈ b, x.name ≠ y.name

/-- The bytes accumulated by the first n recv calls of
ModbusTCPMeter._perform_request, the environment being the attempt-indexed
chunk supply. -/
def recvAccum (chunks : ℕ → List ℕ) : ℕ → List ℕ
  | 0 => []
  | n + 1 => recvAccum chunks n ++ chunks (n + 1)

/-- The receive loop of ModbusTCPMeter._perform_request: while the data
length differs from the expected length, sleep, append the next chunk, and
once attempt has reached 10 give up with the fallback buffer; on exact
length return the data with the 9 header bytes dropped. -/
def recvLoop (expect : ℕ) (chunks : ℕ → List ℕ) (fallback : List ℕ)
    (attempt : ℕ) (data : List ℕ) : List ℕ :=
  if data.length = expect then data.drop 9
  else
    let d2 := data ++ chunks attempt
    if h : 10 ≤ attempt then fallback
    else recvLoop expect chunks fallback (attempt + 1) d2
termination_by 10 - attempt
decreasing_by omega

/-- ModbusTCPMeter._perform_request for a window of num_regs registers:
expected length 9 + 2 * num_regs, fallback 2 * num_regs zero words,
attempts starting at 1 with an empty buffer. -/
def ModbusTCPMeter.perform_request (num_regs : ℕ) (chunks : ℕ → List ℕ) : List ℕ :=
  recvLoop (9 + 2 * num_regs) chunks (List.replicate (2 * num_regs) 0) 1 []

/-- The selector argument of read(): absent, a single name, a list of
names, or a value of any other type. -/
inductive Selector where
  | noneSel : Selector
  | name : String → Selector
  | names : List String → Selector
  | other : Selector
deriving DecidableEq, Repr

/-- The immediate outcome of a read() call, before any decoding: an
exception (TypeError, ValueError, IndexError), a returned string, an empty
dict, Python None from falling off the end of the function, or a transport
plan (which registers will be read and how). -/
inductive ReadOutcome where
  | typeError : ReadOutcome
  | valueError : ReadOutcome
  | indexError : ReadOutcome
  | strResult : String → ReadOutcome
  | emptyMap : ReadOutcome
  | pyNone : ReadOutcome
  | batchPlan : List Reg → ReadOutcome
  | multiPlan : List Reg → ReadOutcome
  | singlePlan : Reg → ReadOutcome
deriving DecidableEq, Repr

/-- Whether the outcome is a raised exception. -/
def isError : ReadOutcome → Bool
  | ReadOutcome.typeError => true
  | ReadOutcome.valueError => true
  | ReadOutcome.indexError => true
  | _ => false

/-- Whether the outcome performs a transport exchange. -/
def isTransport : ReadOutcome → Bool
  | ReadOutcome.batchPlan _ => true
  | ReadOutcome.multiPlan _ => true
  | ReadOutcome.singlePlan _ => true
  | _ => false

/-- Stable ascending sort by register start address, the meaning of
registers.sort(key=lambda reg: reg.start). -/
def sortByStart (regs : List Reg) : List Reg :=
  List.insertionSort (fun a b => a.start ≤ b.start) regs

/-- ModbusRTUMeter.read: dispatch on the selector type.  None reads the
whole catalog through _batch_read; a list filters the catalog (empty
result short-circuits to an empty dict, else the fresh filtered list is
sorted and batch read); a string resolves one register (a miss returns the
string message); anything else raises TypeError.  self.REGS is never
mutated, hence the returned state is always REGS. -/
def ModbusRTUMeter.read (REGS : List Reg) : Selector → ReadOutcome × List Reg
  | Selector.noneSel => (ReadOutcome.batchPlan REGS, REGS)
  | Selector.names l =>
    let registers := REGS.filter (fun r => l.contains r.name)
    if registers.length = 0 then (ReadOutcome.emptyMap, REGS)
    else (ReadOutcome.batchPlan (sortByStart registers), REGS)
  | Selector.name s =>
    match REGS.filter (fun r => r.name == s) with
    | [] => (ReadOutcome.strResult "Register not found on device.", REGS)
    | r :: _ => (ReadOutcome.singlePlan r, REGS)
  | Selector.other => (ReadOutcome.typeError, REGS)

/-- SaiaMeter.read: identical dispatch to ModbusRTUMeter.read except that
a single-name miss raises ValueError. -/
def SaiaMeter.read (REGS : List Reg) : Selector → ReadOutcome × List Reg
  | Selector.noneSel => (ReadOutcome.batchPlan REGS, REGS)
  | Selector.names l =>
    let registers := REGS.filter (fun r => l.contains r.name)
    if registers.length = 0 then (ReadOutcome.emptyMap, REGS)
    else (ReadOutcome.batchPlan (sortByStart registers), REGS)
  | Selector.name s =>
    match REGS.filter (fun r => r.name == s) with
    | [] => (ReadOutcome.valueError, REGS)
    | r :: _ => (ReadOutcome.singlePlan r, REGS)
  | Selector.other => (ReadOutcome.typeError, REGS)

/-- ModbusTCPMeter._read_multiple viewed as a plan: it sorts its argument
in place and iterates _split_ranges over it; on an empty argument the
generator raises IndexError at registers[0] before any transport
exchange. -/
def ModbusTCPMeter.multi (regs : List Reg) : ReadOutcome :=
  if regs.isEmpty then ReadOutcome.indexError
  else ReadOutcome.multiPlan (sortByStart regs)

/-- ModbusTCPMeter.read: None passes self.REGS itself to _read_multiple,
whose in-place sort reorders the catalog (returned state sortByStart
REGS); a string resolves and indexes registers[0] with no emptiness check
(IndexError on a miss); a list filters into a fresh list (self.REGS kept);
any other selector type matches no branch and the function falls off the
end, returning None. -/
def ModbusTCPMeter.read (REGS : List Reg) : Selector → ReadOutcome × List Reg
  | Selector.noneSel => (ModbusTCPMeter.multi REGS, sortByStart REGS)
  | Selector.name s =>
    match REGS.filter (fun r => r.name == s) with
    | [] => (ReadOutcome.indexError, REGS)
    | r :: _ => (ReadOutcome.singlePlan r, REGS)
  | Selector.names l =>
    (ModbusTCPMeter.multi (REGS.filter (fun r => l.contains r.name)), REGS)
  | Selector.other => (ReadOutcome.pyNone, REGS)

/-- AsyncModbusTCPMeter.read: same shape as the synchronous TCP read,
except that a single-name miss is checked and returns the message string;
read(None) again hands self.REGS to the in-place sort of
_read_multiple. -/
def AsyncModbusTCPMeter.read (REGS : List Reg) : Selector → ReadOutcome × List Reg
  | Selector.noneSel => (ModbusTCPMeter.multi REGS, sortByStart REGS)
  | Selector.name s =>
    match REGS.filter (fun r => r.name == s) with
    | [] => (ReadOutcome.strResult "Register not found on device.", REGS)
    | r :: _ => (ReadOutcome.singlePlan r, REGS)
  | Selector.names l =>
    (ModbusTCPMeter.multi (REGS.filter (fun r => l.contains r.name)), REGS)
  | Selector.other => (ReadOutcome.pyNone, REGS)

/-- Sample register at address 10 spanning 2 words. -/
def regA10 : Reg := { name := "a", start := 10, length := 2, signed := false, decimals := 0, isFloat := false }

/-- Sample register at address 14 spanning 2 words. -/
def regA14 : Reg := { name := "b", start := 14, length := 2, signed := false, decimals := 0, isFloat := false }

/-- Sample 1-word register at address 10. -/
def regC10 : Reg := { name := "a", start := 10, length := 1, signed := false, decimals := 0, isFloat := false }

/-- Sample 1-word register at address 11. -/
def regC11 : Reg := { name := "b", start := 11, length := 1, signed := false, decimals := 0, isFloat := false }

/-- Sample 1-word register at address 50. -/
def regC50 : Reg := { name := "c", start := 50, length := 1, signed := false, decimals := 0, isFloat := false }

/-- Sample catalog entry used by the read() dispatch examples. -/
def regV : Reg := { name := "voltage_l1_n", start := 24, length := 1, signed := false, decimals := 0, isFloat := false }

instance : IsTotal Reg (fun a b => a.start ≤ b.start) :=
  ⟨fun a b => le_total a.start b.start⟩

instance : IsTrans Reg (fun a b => a.start ≤ b.start) :=
  ⟨fun _ _ _ h1 h2 => le_trans h1 h2⟩

lemma batchLoop_eq_spec (cap : ℤ) :
    ∀ (rs : List Reg) (start : ℤ) (batch : List Reg) (acc : List (List Reg)),
      batchLoop cap start batch acc rs = acc ++ specGapLoop cap start batch rs := by
  intro rs
  induction rs with
  | nil => intro start batch acc; simp [batchLoop, specGapLoop]
  | cons r rs ih =>
    intro start batch acc
    simp only [batchLoop, specGapLoop]
    by_cases h : r.start + r.length - start ≤ cap
    · rw [if_pos h, if_pos h, ih]
    · rw [if_neg h, if_neg h, ih]
      simp

lemma splitLoop_eq_spec :
    ∀ (rs : List Reg) (pe : ℤ) (cur : List Reg) (acc : List (List Reg)),
      splitLoop pe cur acc rs = acc ++ specContigLoop pe cur rs := by
  intro rs
  induction rs with
  | nil => intro pe cur acc; simp [splitLoop, specContigLoop]
  | cons r rs ih =>
    intro pe cur acc
    simp only [splitLoop, specContigLoop]
    by_cases h : r.start - pe ≤ 1
    · rw [if_neg (by omega), if_pos h, ih]
    · rw [if_pos (by omega), if_neg h, ih]
      simp

lemma batchLoop_concat (cap : ℤ) :
    ∀ (rs : List Reg) (start : ℤ) (batch : List Reg) (acc : List (List Reg)),
      concatAll (batchLoop cap start batch acc rs) = concatAll acc ++ batch ++ rs := by
  intro rs
  induction rs with
  | nil =>
    intro start batch acc
    simp only [batchLoop]
    induction acc with
    | nil => simp [concatAll]
    | cons w ws ihw => simp [concatAll] at ihw ⊢; simp [ihw]
  | cons r rs ih =>
    intro start batch acc
    simp only [batchLoop]
    by_cases h : r.start + r.length - start ≤ cap
    · rw [if_pos h, ih]; simp
    · rw [if_neg h, ih]
      induction acc with
      | nil => simp [concatAll]
      | cons w ws ihw => simp [concatAll] at ihw ⊢; simp [ihw]

lemma splitLoop_concat :
    ∀ (rs : List Reg) (pe : ℤ) (cur : List Reg) (acc : List (List Reg)),
      concatAll (splitLoop pe cur acc rs) = concatAll acc ++ cur ++ rs := by
  intro rs
  induction rs with
  | nil =>
    intro pe cur acc
    simp only [splitLoop]
    induction acc with
    | nil => simp [concatAll]
    | cons w ws ihw => simp [concatAll] at ihw ⊢; simp [ihw]
  | cons r rs ih =>
    intro pe cur acc
    simp only [splitLoop]
    by_cases h : 1 < r.start - pe
    · rw [if_pos h, ih]
      induction acc with
      | nil => simp [concatAll]
      | cons w ws ihw => simp [concatAll] at ihw ⊢; simp [ihw]
    · rw [if_neg h, ih]; simp

lemma mem_concatAll {x : Reg} :
    ∀ {ws : List (List Reg)} {w : List Reg}, w ∈ ws → x ∈ w → x ∈ concatAll ws := by
  intro ws
  induction ws with
  | nil => intro w hw; simp at hw
  | cons v vs ih =>
    intro w hw hx
    simp only [List.mem_cons] at hw
    rcases hw with h | h
    · subst h; simp [concatAll, hx]
    · simp only [concatAll, List.mem_append]
      exact Or.inr (ih h hx)

lemma nodup_names_pairwise :
    ∀ (ws : List (List Reg)),
      ((concatAll ws).map (fun r => r.name)).Nodup → List.Pairwise namesDisjoint ws := by
  intro ws
  induction ws with
  | nil => intro _; exact List.Pairwise.nil
  | cons w vs ih =>
    intro h
    rw [show concatAll (w :: vs) = w ++ concatAll vs from rfl, List.map_append,
      List.nodup_append] at h
    obtain ⟨h1, h2, hdisj⟩ := h
    refine List.Pairwise.cons ?_ (ih h2)
    intro b hb x hx y hy hxy
    exact hdisj (List.mem_map_of_mem (fun r => r.name) hx)
      (hxy ▸ List.mem_map_of_mem (fun r => r.name) (mem_concatAll hb hy))

/-- C2: gap-tolerant batching.  For a non-empty register list sorted
ascending by start (whose first register fits the cap on its own, true of
every catalog since word lengths are at most 4), the batches computed by
_batch_read are exactly the windows described by the spec: a register is
accumulated while register.start + register.length - windowFirstAddress
stays at most the cap, else the window closes and a new one starts at that
register, address gaps inside a window being tolerated.  The cap is 125
for ModbusRTUMeter and 10 for SaiaMeter, and the registers
[start 10 len 2, start 14 len 2] give the single window (10, 6). -/
theorem gap_tolerant_batching :
    (∀ (cap : ℤ) (r : Reg) (rs : List Reg),
        List.Pairwise (fun a b : Reg => a.start ≤ b.start) (r :: rs) →
        r.length ≤ cap →
        batchReadCap cap (r :: rs) = some (specGapBatch cap (r :: rs))) ∧
    ModbusRTUMeter.batch_read = batchReadCap 125 ∧
    SaiaMeter.batch_read = batchReadCap 10 ∧
    ModbusRTUMeter.batch_read [regA10, regA14] = some [[regA10, regA14]] ∧
    windowOf [regA10, regA14] = some (10, 6) := by
  refine ⟨?_, rfl, rfl, by decide, by decide⟩
  intro cap r rs _hs hlen
  simp only [batchReadCap, batchLoop, specGapBatch]
  rw [if_pos (by omega : r.start + r.length - r.start ≤ cap)]
  rw [batchLoop_eq_spec]
  simp

/-- C2 witness: the theorem applied to the concrete register pair of the
claim. -/
theorem gap_tolerant_batching_witness :
    batchReadCap 125 [regA10, regA14] = some (specGapBatch 125 [regA10, regA14]) :=
  gap_tolerant_batching.1 125 regA10 [regA14] (by decide) (by decide)

/-- C3: contiguity-strict splitting.  For a non-empty register list sorted
ascending by start, _split_ranges groups registers into a window only
while the next start is within 1 of the previous end (previous start plus
previous length); a larger gap forces a new window regardless of window
size.  The registers [start 10 len 1, start 11 len 1, start 50 len 1]
split into the two windows (10, 2) and (50, 1). -/
theorem contiguity_strict_splitting :
    (∀ (r : Reg) (rs : List Reg),
        List.Pairwise (fun a b : Reg => a.start ≤ b.start) (r :: rs) →
        ModbusTCPMeter.split_ranges (r :: rs) = some (specContigSplit (r :: rs))) ∧
    ModbusTCPMeter.split_ranges [regC10, regC11, regC50] =
      some [[regC10, regC11], [regC50]] ∧
    windowOf [regC10, regC11] = some (10, 2) ∧
    windowOf [regC50] = some (50, 1) := by
  refine ⟨?_, by decide, by decide, by decide⟩
  intro r rs _hs
  simp only [ModbusTCPMeter.split_ranges, splitLoop, specContigSplit]
  rw [if_neg (by omega : ¬ 1 < r.start - (r.start - 1))]
  rw [splitLoop_eq_spec]
  simp

/-- C3 witness: the theorem applied to the concrete register triple of the
claim. -/
theorem contiguity_strict_splitting_witness :
    ModbusTCPMeter.split_ranges [regC10, regC11, regC50] =
      some (specContigSplit [regC10, regC11, regC50]) :=
  contiguity_strict_splitting.1 regC10 [regC11, regC50] (by decide)

/-- C9: window partition invariant.  For a non-empty register list with
pairwise distinct names, both policies assign every input register to
exactly one window: the concatenation of the windows is the input list
itself, and the windows carry pairwise disjoint name sets, so merging the
per-window decode maps is a disjoint union keyed by exactly the input
names. -/
theorem window_partition_invariant (cap : ℤ) (r : Reg) (rs : List Reg)
    (hnd : ((r :: rs).map (fun x => x.name)).Nodup) :
    ∃ ws1 ws2,
      batchReadCap cap (r :: rs) = some ws1 ∧
      ModbusTCPMeter.split_ranges (r :: rs) = some ws2 ∧
      concatAll ws1 = r :: rs ∧ concatAll ws2 = r :: rs ∧
      List.Pairwise namesDisjoint ws1 ∧ List.Pairwise namesDisjoint ws2 := by
  refine ⟨batchLoop cap r.start [] [] (r :: rs),
          splitLoop (r.start - 1) [] [] (r :: rs), rfl, rfl, ?_, ?_, ?_, ?_⟩
  · rw [batchLoop_concat]; simp [concatAll]
  · rw [splitLoop_concat]; simp [concatAll]
  · apply nodup_names_pairwise
    rw [batchLoop_concat]
    simpa [concatAll] using hnd
  · apply nodup_names_pairwise
    rw [splitLoop_concat]
    simpa [concatAll] using hnd

/-- C9 witness: the invariant at the concrete two-register catalog. -/
theorem window_partition_invariant_witness :
    ∃ ws1 ws2,
      batchReadCap 125 [regA10, regA14] = some ws1 ∧
      ModbusTCPMeter.split_ranges [regA10, regA14] = some ws2 ∧
      concatAll ws1 = [regA10, regA14] ∧ concatAll ws2 = [regA10, regA14] ∧
      List.Pairwise namesDisjoint ws1 ∧ List.Pairwise namesDisjoint ws2 :=
  window_partition_invariant 125 regA10 [regA14] (by decide)

lemma toSigned_eq_bmod (n : ℕ) (hn : 1 ≤ n) (raw : ℕ) (h : raw < 2 ^ n) :
    toSigned n raw = Int.bmod (raw : ℤ) (2 ^ n) := by
  have h2 : (2 : ℤ) ^ n = 2 * 2 ^ (n - 1) := by
    conv_lhs => rw [show n = 1 + (n - 1) by omega]
    rw [pow_add, pow_one]
  have hc : ((2 ^ n : ℕ) : ℤ) = (2 : ℤ) ^ n := by push_cast; ring
  have hmod : (raw : ℤ) % ((2 : ℤ) ^ n) = (raw : ℤ) := by
    apply Int.emod_eq_of_lt (by positivity)
    exact_mod_cast h
  unfold toSigned Int.bmod
  simp only [hc, hmod]
  have h3 : ((2 : ℤ) ^ n + 1) / 2 = 2 ^ (n - 1) := by omega
  rw [h3]
  have hcast : raw < 2 ^ (n - 1) ↔ (raw : ℤ) < (2 : ℤ) ^ (n - 1) := by
    constructor <;> intro hx <;> exact_mod_cast hx
  split <;> split <;> first | rfl | (exfalso; omega)

lemma foldl_words (ws : List ℕ) :
    ∀ a : ℕ, ws.foldl (fun x w => x * 65536 + w) a = a * 65536 ^ ws.length + specPackBE ws := by
  induction ws with
  | nil => intro a; simp [specPackBE]
  | cons w ws ih =>
    intro a
    simp only [List.foldl_cons, ih, specPackBE, List.length_cons]
    have hp : (2 : ℕ) ^ (16 * ws.length) = 65536 ^ ws.length := by
      rw [show (65536 : ℕ) = 2 ^ 16 by norm_num, ← pow_mul]
    rw [hp, pow_succ]
    ring

lemma packBE_eq_spec (ws : List ℕ) : packBE ws = specPackBE ws := by
  simp [packBE, foldl_words]

lemma specPackBE_lt (ws : List ℕ) (h : ∀ w ∈ ws, w < 2 ^ 16) :
    specPackBE ws < 2 ^ (16 * ws.length) := by
  induction ws with
  | nil => simp [specPackBE]
  | cons w ws ih =>
    have hw : w < 2 ^ 16 := h w (by simp)
    have ih2 : specPackBE ws < 2 ^ (16 * ws.length) := ih (fun x hx => h x (by simp [hx]))
    simp only [specPackBE, List.length_cons]
    rw [show 16 * (ws.length + 1) = 16 * ws.length + 16 by ring, pow_add]
    calc w * 2 ^ (16 * ws.length) + specPackBE ws
        < w * 2 ^ (16 * ws.length) + 2 ^ (16 * ws.length) := by omega
      _ = (w + 1) * 2 ^ (16 * ws.length) := by ring
      _ ≤ 2 ^ 16 * 2 ^ (16 * ws.length) := Nat.mul_le_mul_right _ (by omega)
      _ = 2 ^ (16 * ws.length) * 2 ^ 16 := by ring

lemma wordsToBytes_length (ws : List ℕ) : (wordsToBytes ws).length = 2 * ws.length := by
  induction ws with
  | nil => simp [wordsToBytes]
  | cons w ws ih =>
    simp only [wordsToBytes, List.flatMap_cons] at ih ⊢
    simp only [List.length_append, ih, List.length_cons]
    simp [List.length_nil]
    ring

lemma wordsToBytes_lt (ws : List ℕ) (h : ∀ w ∈ ws, w < 2 ^ 16) :
    ∀ b ∈ wordsToBytes ws, b < 256 := by
  induction ws with
  | nil => simp [wordsToBytes]
  | cons w ws ih =>
    intro b hb
    have hw : w < 2 ^ 16 := h w (by simp)
    simp only [wordsToBytes, List.flatMap_cons, List.mem_append, List.mem_cons,
      List.mem_singleton] at hb
    rcases hb with (h1 | h1 | h1) | h1
    · subst h1; omega
    · subst h1; omega
    · simp at h1
    · exact ih (fun x hx => h x (by simp [hx])) b h1

lemma foldl_bytes_words (ws : List ℕ) :
    ∀ a : ℕ, (wordsToBytes ws).foldl (fun x b => x * 256 + b) a =
      ws.foldl (fun x w => x * 65536 + w) a := by
  induction ws with
  | nil => intro a; simp [wordsToBytes]
  | cons w ws ih =>
    intro a
    simp only [wordsToBytes, List.flatMap_cons] at ih ⊢
    simp only [List.cons_append, List.nil_append, List.foldl_cons, List.foldl_cons]
    rw [show (a * 256 + w / 256) * 256 + w % 256 = a * 65536 + w by omega]
    exact ih (a * 65536 + w)

lemma bytesBE_wordsToBytes (ws : List ℕ) : bytesBE (wordsToBytes ws) = packBE ws := by
  simp [bytesBE, packBE, foldl_bytes_words]

/-- Bridge between the spec-side decode (positional packing, balanced
residue) and the code-side packing and sign reading, valid once the packed
integer fits its width. -/
lemma specNonFloatDecode_eq (sent : List ℤ) (ws : List ℕ) (sg : Bool) (d : ℤ)
    (hn : 1 ≤ 16 * ws.length) (hlt : specPackBE ws < 2 ^ (16 * ws.length)) :
    specNonFloatDecode sent ws sg d =
      if (if sg then toSigned (16 * ws.length) (packBE ws) else (packBE ws : ℤ)) ∈ sent
      then PyVal.null
      else PyVal.num
        (((if sg then toSigned (16 * ws.length) (packBE ws) else (packBE ws : ℤ)) : ℚ) /
          (10 : ℚ) ^ d) := by
  unfold specNonFloatDecode
  rw [packBE_eq_spec]
  cases sg with
  | false => rfl
  | true =>
    rw [toSigned_eq_bmod _ hn _ hlt]
    split <;> rfl

/-- C1 (amended): non-float decode.  For the serial codec and word lists
of length 1, 2 or 4, and for the TCP codec and word lists of length 1 or
2 (carried as 2 bytes per word), the decoded value is exactly the
spec-side description: the words packed big-endian into an integer of
16 x wordLength bits, read unsigned or as the balanced (twos complement)
residue when signed, turned into an absent reading when the integer is one
of the transport sentinels, else divided by 10 ** decimals.  The TCP codec
however does not decode 4-word integers at all: an 8-byte buffer matches
no branch of _convert_value and raises struct.error. -/
theorem nonfloat_decode_amended :
    (∀ (ws : List ℕ) (sg : Bool) (d : ℤ),
        (ws.length = 1 ∨ ws.length = 2 ∨ ws.length = 4) →
        (∀ w ∈ ws, w < 2 ^ 16) →
        ModbusRTUMeter.convert_value ws sg d false =
          some (specNonFloatDecode ABBMeter.NULLS ws sg d)) ∧
    (∀ (ws : List ℕ) (sg : Bool) (d : ℤ),
        (ws.length = 1 ∨ ws.length = 2) →
        (∀ w ∈ ws, w < 2 ^ 16) →
        ModbusTCPMeter.convert_value tcpNULLS (wordsToBytes ws) sg d false =
          some (specNonFloatDecode tcpNULLS ws sg d)) ∧
    (∀ (ws : List ℕ) (sg : Bool) (d : ℤ),
        ws.length = 4 →
        (∀ w ∈ ws, w < 2 ^ 16) →
        ModbusTCPMeter.convert_value tcpNULLS (wordsToBytes ws) sg d false = none) := by
  refine ⟨?_, ?_, ?_⟩
  · intro ws sg d hlen hw
    have hg : ¬ ∃ w ∈ ws, 65536 ≤ w := by
      push_neg
      intro w hmem
      have := hw w hmem
      omega
    have hn : 1 ≤ 16 * ws.length := by rcases hlen with h | h | h <;> omega
    have hlt : specPackBE ws < 2 ^ (16 * ws.length) := specPackBE_lt ws hw
    unfold ModbusRTUMeter.convert_value
    rw [if_neg hg, if_neg (by simp), if_neg (by simp), if_pos hlen,
      specNonFloatDecode_eq ABBMeter.NULLS ws sg d hn hlt, apply_ite some]
    cases sg <;> split <;> rfl
  · intro ws sg d hlen hw
    have hg : ¬ ∃ b ∈ wordsToBytes ws, 256 ≤ b := by
      push_neg
      intro b hmem
      have := wordsToBytes_lt ws hw b hmem
      omega
    have hlen2 : (wordsToBytes ws).length = 2 * ws.length := wordsToBytes_length ws
    have hlen3 : (wordsToBytes ws).length = 1 ∨ (wordsToBytes ws).length = 2 ∨
        (wordsToBytes ws).length = 4 := by rcases hlen with h | h <;> omega
    have hn : 1 ≤ 16 * ws.length := by rcases hlen with h | h <;> omega
    have hlt : specPackBE ws < 2 ^ (16 * ws.length) := specPackBE_lt ws hw
    have h8 : 8 * (wordsToBytes ws).length = 16 * ws.length := by omega
    unfold ModbusTCPMeter.convert_value
    rw [if_neg hg, if_neg (by simp), if_pos hlen3, bytesBE_wordsToBytes, h8,
      specNonFloatDecode_eq tcpNULLS ws sg d hn hlt, apply_ite some]
    cases sg <;> split <;> rfl
  · intro ws sg d hlen hw
    have hg : ¬ ∃ b ∈ wordsToBytes ws, 256 ≤ b := by
      push_neg
      intro b hmem
      have := wordsToBytes_lt ws hw b hmem
      omega
    have hlen2 : (wordsToBytes ws).length = 8 := by
      have := wordsToBytes_length ws
      omega
    unfold ModbusTCPMeter.convert_value
    rw [if_neg hg, if_neg (by simp), if_neg (by omega)]

/-- C1 witness: the amended decode at concrete inputs, one per conjunct. -/
theorem nonfloat_decode_amended_witness :
    ModbusRTUMeter.convert_value [5] false 2 false =
      some (specNonFloatDecode ABBMeter.NULLS [5] false 2) ∧
    ModbusTCPMeter.convert_value tcpNULLS (wordsToBytes [5]) false 0 false =
      some (specNonFloatDecode tcpNULLS [5] false 0) ∧
    ModbusTCPMeter.convert_value tcpNULLS (wordsToBytes [0, 0, 0, 0]) false 0 false = none :=
  ⟨nonfloat_decode_amended.1 [5] false 2 (by norm_num) (by decide),
   nonfloat_decode_amended.2.1 [5] false 0 (by norm_num) (by decide),
   nonfloat_decode_amended.2.2 [0, 0, 0, 0] false 0 (by norm_num) (by decide)⟩

/-- C1 counterexample: the claim as stated also asserts the TCP decode of
4-word integers; on the 8-byte zero buffer (raw integer 0, no sentinel,
decimals 0) it predicts the decoded value 0, but the TCP codec raises
struct.error there. -/
theorem nonfloat_decode_tcp_4word_cex :
    ModbusTCPMeter.convert_value tcpNULLS (List.replicate 8 0) false 0 false = none ∧
    ModbusTCPMeter.convert_value tcpNULLS (List.replicate 8 0) false 0 false ≠
      some (PyVal.num 0) := by
  constructor
  · decide
  · decide

/-- C5 (amended): float decode.  The RTU codec returns a 2-word is_float
register as the IEEE-754 single and a 4-word one as the IEEE-754 double of
the big-endian packed pattern, with no decimal scaling and no sentinel
substitution (the result does not depend on the decimals or signed
arguments and is never a null reading).  The TCP codec instead always
unpacks is_float data with the single-precision format code: a 4-byte
buffer decodes as a single whose value is then still checked against the
NULLS sentinels and divided by 10 ** decimals, and an 8-byte buffer (the
4-word double case) raises struct.error. -/
theorem float_decode_amended :
    (∀ (ws : List ℕ) (sg : Bool) (d : ℤ),
        ws.length = 2 → (∀ w ∈ ws, w < 2 ^ 16) →
        ModbusRTUMeter.convert_value ws sg d true = some (PyVal.f32 (specPackBE ws))) ∧
    (∀ (ws : List ℕ) (sg : Bool) (d : ℤ),
        ws.length = 4 → (∀ w ∈ ws, w < 2 ^ 16) →
        ModbusRTUMeter.convert_value ws sg d true = some (PyVal.f64 (specPackBE ws))) ∧
    (∀ (bs : List ℕ) (sg : Bool) (d : ℤ) (q : ℚ),
        bs.length = 4 → (∀ b ∈ bs, b < 256) →
        ieee32Val (bytesBE bs) = some q →
        ModbusTCPMeter.convert_value tcpNULLS bs sg d true =
          some (if q ∈ tcpNULLS.map (fun z => (z : ℚ)) then PyVal.null
                else PyVal.num (q / (10 : ℚ) ^ d))) ∧
    (∀ (bs : List ℕ) (sg : Bool) (d : ℤ),
        bs.length = 8 → (∀ b ∈ bs, b < 256) →
        ModbusTCPMeter.convert_value tcpNULLS bs sg d true = none) := by
  refine ⟨?_, ?_, ?_, ?_⟩
  · intro ws sg d hlen hw
    have hg : ¬ ∃ w ∈ ws, 65536 ≤ w := by
      push_neg
      intro w hmem
      have := hw w hmem
      omega
    unfold ModbusRTUMeter.convert_value
    rw [if_neg hg, if_pos ⟨rfl, hlen⟩, packBE_eq_spec]
  · intro ws sg d hlen hw
    have hg : ¬ ∃ w ∈ ws, 65536 ≤ w := by
      push_neg
      intro w hmem
      have := hw w hmem
      omega
    unfold ModbusRTUMeter.convert_value
    rw [if_neg hg, if_neg (by simp [hlen]), if_pos ⟨rfl, hlen⟩, packBE_eq_spec]
  · intro bs sg d q hlen hb hq
    have hg : ¬ ∃ b ∈ bs, 256 ≤ b := by
      push_neg
      intro b hmem
      have := hb b hmem
      omega
    unfold ModbusTCPMeter.convert_value
    rw [if_neg hg, if_pos rfl, if_pos hlen, hq]
    rw [apply_ite some]
  · intro bs sg d hlen hb
    have hg : ¬ ∃ b ∈ bs, 256 ≤ b := by
      push_neg
      intro b hmem
      have := hb b hmem
      omega
    unfold ModbusTCPMeter.convert_value
    rw [if_neg hg, if_pos rfl, if_neg (by omega)]

/-- C5 witness: the amended float decode at concrete inputs, one per
conjunct; the TCP single case is the pattern of 1.0. -/
theorem float_decode_amended_witness :
    ModbusRTUMeter.convert_value [0, 0] true 3 true = some (PyVal.f32 (specPackBE [0, 0])) ∧
    ModbusRTUMeter.convert_value [0, 0, 0, 0] true 3 true =
      some (PyVal.f64 (specPackBE [0, 0, 0, 0])) ∧
    ModbusTCPMeter.convert_value tcpNULLS [63, 128, 0, 0] false 1 true =
      some (if (1 : ℚ) ∈ tcpNULLS.map (fun z => (z : ℚ)) then PyVal.null
            else PyVal.num ((1 : ℚ) / (10 : ℚ) ^ (1 : ℤ))) ∧
    ModbusTCPMeter.convert_value tcpNULLS (List.replicate 8 0) false 0 true = none :=
  ⟨float_decode_amended.1 [0, 0] true 3 rfl (by decide),
   float_decode_amended.2.1 [0, 0, 0, 0] true 3 rfl (by decide),
   float_decode_amended.2.2.1 [63, 128, 0, 0] false 1 1 rfl (by decide)
     (by norm_num [ieee32Val, bytesBE]),
   float_decode_amended.2.2.2 (List.replicate 8 0) false 0 rfl (by decide)⟩

/-- C5 counterexample: the TCP codec does apply sentinel substitution and
decimal scaling to floats, and cannot decode doubles.  The 4-byte pattern
of the float 32768.0 (a NULLS member) decodes to None instead of the
float; the pattern of 1.0 with decimals 1 decodes to 0.1 instead of the
unscaled 1.0; and the 8-byte zero buffer (double 0.0) raises instead of
decoding. -/
theorem float_decode_tcp_cex :
    ModbusTCPMeter.convert_value tcpNULLS [71, 0, 0, 0] false 0 true = some PyVal.null ∧
    ModbusTCPMeter.convert_value tcpNULLS [63, 128, 0, 0] false 1 true =
      some (PyVal.num (1 / 10)) ∧
    ModbusTCPMeter.convert_value tcpNULLS (List.replicate 8 0) false 0 true = none := by
  refine ⟨?_, ?_, by decide⟩
  · have h1 : ieee32Val (bytesBE [71, 0, 0, 0]) = some 32768 := by
      norm_num [ieee32Val, bytesBE]
    unfold ModbusTCPMeter.convert_value
    rw [if_neg (by decide), if_pos rfl, if_pos (by norm_num), h1]
    have hm : (32768 : ℚ) ∈ tcpNULLS.map (fun z => (z : ℚ)) := by norm_num [tcpNULLS]
    simp [hm]
    exact ⟨32768, by norm_num [tcpNULLS], by norm_num⟩
  · have h1 : ieee32Val (bytesBE [63, 128, 0, 0]) = some 1 := by
      norm_num [ieee32Val, bytesBE]
    unfold ModbusTCPMeter.convert_value
    rw [if_neg (by decide), if_pos rfl, if_pos (by norm_num), h1]
    have hm : ¬ (1 : ℚ) ∈ tcpNULLS.map (fun z => (z : ℚ)) := by norm_num [tcpNULLS]
    simp [hm]
    intro x hx
    fin_cases hx <;> norm_num

lemma recvAccum_succ (chunks : ℕ → List ℕ) (k : ℕ) :
    recvAccum chunks (k + 1) = recvAccum chunks k ++ chunks (k + 1) := rfl

lemma recvLoop_exhaust (expect : ℕ) (chunks : ℕ → List ℕ) (fb : List ℕ) :
    ∀ (f a : ℕ), a + f = 10 → 1 ≤ a →
      (∀ k, a - 1 ≤ k → k ≤ 9 → (recvAccum chunks k).length ≠ expect) →
      recvLoop expect chunks fb a (recvAccum chunks (a - 1)) = fb := by
  intro f
  induction f with
  | zero =>
    intro a ha h1 hk
    have ha10 : a = 10 := by omega
    subst ha10
    rw [recvLoop, if_neg (hk 9 (by omega) (by omega))]
    simp
  | succ f ih =>
    intro a ha h1 hk
    rw [recvLoop, if_neg (hk (a - 1) (by omega) (by omega))]
    rw [dif_neg (by omega : ¬ 10 ≤ a)]
    have hdata : recvAccum chunks (a - 1) ++ chunks a = recvAccum chunks a := by
      conv_rhs => rw [show a = (a - 1) + 1 by omega]
      rw [recvAccum_succ, show a - 1 + 1 = a by omega]
    rw [hdata]
    have := ih (a + 1) (by omega) (by omega) (fun k hk1 hk2 => hk k (by omega) hk2)
    rw [show a + 1 - 1 = a by omega] at this
    exact this

lemma recvLoop_success (expect : ℕ) (chunks : ℕ → List ℕ) (fb : List ℕ) :
    ∀ (f a K : ℕ), a + f = 10 → 1 ≤ a → a - 1 ≤ K → K ≤ 9 →
      (recvAccum chunks K).length = expect →
      (∀ j, a - 1 ≤ j → j < K → (recvAccum chunks j).length ≠ expect) →
      recvLoop expect chunks fb a (recvAccum chunks (a - 1)) =
        (recvAccum chunks K).drop 9 := by
  intro f
  induction f with
  | zero =>
    intro a K ha h1 hK1 hK2 hKlen _hj
    have ha10 : a = 10 := by omega
    subst ha10
    have hK : K = 9 := by omega
    subst hK
    rw [recvLoop, if_pos (by simpa using hKlen)]
  | succ f ih =>
    intro a K ha h1 hK1 hK2 hKlen hj
    by_cases hKa : K = a - 1
    · subst hKa
      rw [recvLoop, if_pos hKlen]
    · rw [recvLoop, if_neg (hj (a - 1) (by omega) (by omega))]
      rw [dif_neg (by omega : ¬ 10 ≤ a)]
      have hdata : recvAccum chunks (a - 1) ++ chunks a = recvAccum chunks a := by
        conv_rhs => rw [show a = (a - 1) + 1 by omega]
        rw [recvAccum_succ, show a - 1 + 1 = a by omega]
      rw [hdata]
      have := ih (a + 1) K (by omega) (by omega) (by omega) hK2 hKlen
        (fun j hj1 hj2 => hj j (by omega) hj2)
      rw [show a + 1 - 1 = a by omega] at this
      exact this

/-- C4: the synchronous TCP receive loop.  Completeness of the buffer is
tested before each of at most 10 recv attempts; if the bytes accumulated
after some attempt k (k at most 9, with k = 0 the initial empty buffer)
reach exactly 9 + 2 * registerCount and no earlier checkpoint did, the
loop stops there and returns the buffer with the 9 header bytes dropped;
if no checkpoint up to the ninth accumulation reaches the exact length,
the loop returns 2 * registerCount zero words instead of raising, so
retry exhaustion is not surfaced as an error. -/
theorem tcp_receive_loop (num_regs : ℕ) (chunks : ℕ → List ℕ) :
    ((∀ k, k ≤ 9 → (recvAccum chunks k).length ≠ 9 + 2 * num_regs) →
      ModbusTCPMeter.perform_request num_regs chunks =
        List.replicate (2 * num_regs) 0) ∧
    (∀ K, K ≤ 9 → (recvAccum chunks K).length = 9 + 2 * num_regs →
      (∀ j, j < K → (recvAccum chunks j).length ≠ 9 + 2 * num_regs) →
      ModbusTCPMeter.perform_request num_regs chunks =
        (recvAccum chunks K).drop 9) := by
  constructor
  · intro hk
    have := recvLoop_exhaust (9 + 2 * num_regs) chunks
      (List.replicate (2 * num_regs) 0) 9 1 (by omega) (by omega)
      (fun k hk1 hk2 => hk k hk2)
    simpa [ModbusTCPMeter.perform_request, recvAccum] using this
  · intro K hK2 hKlen hj
    have := recvLoop_success (9 + 2 * num_regs) chunks
      (List.replicate (2 * num_regs) 0) 9 1 K (by omega) (by omega) (by omega) hK2
      hKlen (fun j hj1 hj2 => hj j hj2)
    simpa [ModbusTCPMeter.perform_request, recvAccum] using this

/-- C4 witness: with no incoming bytes the loop yields the two zero words
of a one-register window; with the full 11-byte response arriving on the
first attempt it yields the 2-byte payload. -/
theorem tcp_receive_loop_witness :
    ModbusTCPMeter.perform_request 1 (fun _ => ([] : List ℕ)) = [0, 0] ∧
    ModbusTCPMeter.perform_request 1
      (fun i => if i = 1 then [9, 9, 9, 9, 9, 9, 9, 9, 9, 7, 7] else []) = [7, 7] := by
  constructor
  · have := (tcp_receive_loop 1 (fun _ => ([] : List ℕ))).1 ?_
    · simpa using this
    · intro k hk
      induction k with
      | zero => simp [recvAccum]
      | succ n ihn => simpa [recvAccum_succ] using ihn (by omega)
  · have := (tcp_receive_loop 1
      (fun i => if i = 1 then [9, 9, 9, 9, 9, 9, 9, 9, 9, 7, 7] else [])).2 1
      (by omega) (by simp [recvAccum]) ?_
    · simpa [recvAccum] using this
    · intro j hj
      interval_cases j
      simp [recvAccum]

/-- C6 (amended): invalid selector.  A selector that is neither absent, a
string name, nor a list of names makes ModbusRTUMeter.read and
SaiaMeter.read raise TypeError before any transport exchange; the TCP
clients however have no else branch, so the same selector silently falls
off the end of read and returns Python None, also with no transport
exchange and no error raised. -/
theorem invalid_selector_amended :
    ∀ REGS : List Reg,
      (ModbusRTUMeter.read REGS Selector.other).1 = ReadOutcome.typeError ∧
      (SaiaMeter.read REGS Selector.other).1 = ReadOutcome.typeError ∧
      (ModbusTCPMeter.read REGS Selector.other).1 = ReadOutcome.pyNone ∧
      (AsyncModbusTCPMeter.read REGS Selector.other).1 = ReadOutcome.pyNone ∧
      isTransport (ModbusRTUMeter.read REGS Selector.other).1 = false ∧
      isTransport (ModbusTCPMeter.read REGS Selector.other).1 = false ∧
      isError (ModbusTCPMeter.read REGS Selector.other).1 = false :=
  fun _ => ⟨rfl, rfl, rfl, rfl, rfl, rfl, rfl⟩

/-- C6 counterexample: on the synchronous TCP client an invalid selector
returns None rather than raising TypeError, so the claim that both clients
fail with a type error is false. -/
theorem invalid_selector_tcp_cex :
    (ModbusTCPMeter.read [regV] Selector.other).1 = ReadOutcome.pyNone ∧
    ReadOutcome.pyNone ≠ ReadOutcome.typeError ∧
    isError (ModbusTCPMeter.read [regV] Selector.other).1 = false := by
  refine ⟨rfl, by decide, rfl⟩

/-- C7 (amended): empty resolution.  A list selector none of whose names
is in the catalog makes ModbusRTUMeter.read (and SaiaMeter.read) return
the empty dict with no transport exchange; ModbusTCPMeter.read instead
passes the empty filtered list to _read_multiple, whose _split_ranges
generator raises IndexError at registers[0] - also before any transport
exchange, but an exception rather than an empty result. -/
theorem empty_resolution_amended :
    ∀ (REGS : List Reg) (l : List String),
      REGS.filter (fun r => l.contains r.name) = [] →
      (ModbusRTUMeter.read REGS (Selector.names l)).1 = ReadOutcome.emptyMap ∧
      (SaiaMeter.read REGS (Selector.names l)).1 = ReadOutcome.emptyMap ∧
      (ModbusTCPMeter.read REGS (Selector.names l)).1 = ReadOutcome.indexError ∧
      isTransport (ModbusRTUMeter.read REGS (Selector.names l)).1 = false ∧
      isTransport (ModbusTCPMeter.read REGS (Selector.names l)).1 = false := by
  intro REGS l h
  refine ⟨?_, ?_, ?_, ?_, ?_⟩ <;>
    simp only [ModbusRTUMeter.read, SaiaMeter.read, ModbusTCPMeter.read,
      ModbusTCPMeter.multi] <;>
    rw [h] <;> simp [isTransport]

/-- C7 witness: the amended behaviour at a one-register catalog and a
selector list naming nothing in it. -/
theorem empty_resolution_amended_witness :
    (ModbusRTUMeter.read [regV] (Selector.names ["nope"])).1 = ReadOutcome.emptyMap ∧
    (SaiaMeter.read [regV] (Selector.names ["nope"])).1 = ReadOutcome.emptyMap ∧
    (ModbusTCPMeter.read [regV] (Selector.names ["nope"])).1 = ReadOutcome.indexError ∧
    isTransport (ModbusRTUMeter.read [regV] (Selector.names ["nope"])).1 = false ∧
    isTransport (ModbusTCPMeter.read [regV] (Selector.names ["nope"])).1 = false :=
  empty_resolution_amended [regV] ["nope"] (by decide)

/-- C7 counterexample: on the synchronous TCP client an empty resolution
raises IndexError instead of returning the empty dict, so the claim that
both clients return an empty result without raising is false. -/
theorem empty_resolution_tcp_cex :
    (ModbusTCPMeter.read [regV] (Selector.names ["nope"])).1 = ReadOutcome.indexError ∧
    ReadOutcome.indexError ≠ ReadOutcome.emptyMap ∧
    isError ReadOutcome.indexError = true := by
  refine ⟨by decide, by decide, rfl⟩

/-- C8 (amended): single name not found.  A string selector naming no
register makes SaiaMeter.read raise ValueError and ModbusTCPMeter.read
raise IndexError (fatal outcomes), but ModbusRTUMeter.read merely returns
the string message, a normal non-raising return; in every case the
outcome is an error or a string, distinct from any decoded register value
and from a null (None) reading. -/
theorem single_name_not_found_amended :
    ∀ (REGS : List Reg) (s : String),
      REGS.filter (fun r => r.name == s) = [] →
      (ModbusRTUMeter.read REGS (Selector.name s)).1 =
        ReadOutcome.strResult "Register not found on device." ∧
      (SaiaMeter.read REGS (Selector.name s)).1 = ReadOutcome.valueError ∧
      (ModbusTCPMeter.read REGS (Selector.name s)).1 = ReadOutcome.indexError ∧
      isError (ModbusRTUMeter.read REGS (Selector.name s)).1 = false ∧
      isError (SaiaMeter.read REGS (Selector.name s)).1 = true ∧
      isError (ModbusTCPMeter.read REGS (Selector.name s)).1 = true := by
  intro REGS s h
  refine ⟨?_, ?_, ?_, ?_, ?_, ?_⟩ <;>
    simp [ModbusRTUMeter.read, SaiaMeter.read, ModbusTCPMeter.read, h, isError]

/-- C8 witness: the amended behaviour at a one-register catalog and an
unknown name. -/
theorem single_name_not_found_amended_witness :
    (ModbusRTUMeter.read [regV] (Selector.name "nope")).1 =
      ReadOutcome.strResult "Register not found on device." ∧
    (SaiaMeter.read [regV] (Selector.name "nope")).1 = ReadOutcome.valueError ∧
    (ModbusTCPMeter.read [regV] (Selector.name "nope")).1 = ReadOutcome.indexError ∧
    isError (ModbusRTUMeter.read [regV] (Selector.name "nope")).1 = false ∧
    isError (SaiaMeter.read [regV] (Selector.name "nope")).1 = true ∧
    isError (ModbusTCPMeter.read [regV] (Selector.name "nope")).1 = true :=
  single_name_not_found_amended [regV] "nope" (by decide)

/-- C8 counterexample: on the RTU client a single-name miss is not fatal;
read returns the message string as an ordinary value, so the claim that
read fails fatally for that call is false. -/
theorem single_name_not_found_rtu_cex :
    (ModbusRTUMeter.read [regV] (Selector.name "nope")).1 =
      ReadOutcome.strResult "Register not found on device." ∧
    isError (ModbusRTUMeter.read [regV] (Selector.name "nope")).1 = false := by
  refine ⟨by decide, by decide⟩

/-- C10: catalog frame effect.  String and list selectors leave the
client catalog self.REGS unchanged on every client (list selectors sort a
fresh filtered list); but read(None) on the synchronous and asynchronous
TCP clients hands self.REGS itself to _read_multiple, whose in-place sort
permanently reorders the catalog ascending by start (sorting again is the
identity, so the order is stable from then on), losing the declaration
order, as the concrete two-register catalog shows.  The RTU read never
reorders the catalog, read(None) included. -/
theorem catalog_frame_effect :
    (∀ (REGS : List Reg) (s : String),
        (ModbusRTUMeter.read REGS (Selector.name s)).2 = REGS) ∧
    (∀ (REGS : List Reg) (l : List String),
        (ModbusRTUMeter.read REGS (Selector.names l)).2 = REGS) ∧
    (∀ REGS : List Reg, (ModbusRTUMeter.read REGS Selector.noneSel).2 = REGS) ∧
    (∀ (REGS : List Reg) (s : String),
        (ModbusTCPMeter.read REGS (Selector.name s)).2 = REGS) ∧
    (∀ (REGS : List Reg) (l : List String),
        (ModbusTCPMeter.read REGS (Selector.names l)).2 = REGS) ∧
    (∀ REGS : List Reg,
        (ModbusTCPMeter.read REGS Selector.noneSel).2 = sortByStart REGS) ∧
    (∀ REGS : List Reg,
        (AsyncModbusTCPMeter.read REGS Selector.noneSel).2 = sortByStart REGS) ∧
    (∀ REGS : List Reg,
        List.Pairwise (fun a b : Reg => a.start ≤ b.start) (sortByStart REGS)) ∧
    (∀ REGS : List Reg, sortByStart (sortByStart REGS) = sortByStart REGS) ∧
    (ModbusTCPMeter.read [regC11, regC10] Selector.noneSel).2 = [regC10, regC11] ∧
    [regC10, regC11] ≠ [regC11, regC10] := by
  refine ⟨?_, ?_, ?_, ?_, ?_, ?_, ?_, ?_, ?_, by decide, by decide⟩
  · intro REGS s
    simp only [ModbusRTUMeter.read]
    cases REGS.filter (fun r => r.name == s) <;> rfl
  · intro REGS l
    simp only [ModbusRTUMeter.read]
    split <;> rfl
  · intro REGS
    rfl
  · intro REGS s
    simp only [ModbusTCPMeter.read]
    cases REGS.filter (fun r => r.name == s) <;> rfl
  · intro REGS l
    rfl
  · intro REGS
    rfl
  · intro REGS
    rfl
  · intro REGS
    exact List.sorted_insertionSort (fun a b => a.start ≤ b.start) REGS
  · intro REGS
    exact List.Sorted.insertionSort_eq
      (List.sorted_insertionSort (fun a b => a.start ≤ b.start) REGS)
